import Mathlib

/-!
Verification of the incremental LLM document-generation pipeline
(`index.ts`, `generate-api-doc.ts`, `generate-cli-doc.ts`, `generate-openapi.ts`
and the unnamed bulk-summarization / toc modules).

The TypeScript sources are shallowly embedded:
* a JavaScript cache value (`Record<string, any>` entry) becomes `CVal`,
  restricted to the shapes the program actually stores (null, numbers,
  strings, TOC objects, TOC section objects);
* a JavaScript object becomes an association list `Obj` in insertion order;
  the spread merge `{...old, ...new}` becomes `ctxMerge`;
* the process state of the cache module (`CONTEXT` in-memory mirror plus
  the per-name `context/<name>.json.gz` files) becomes `CacheState`;
* async functions are pure state-passing functions; thrown exceptions
  become `Except`/`Option` results.
-/

namespace LlmDocGen

/-- A part entry of the generated table of contents (`Toc` in `index.ts`). -/
structure TocPart where
  slug : String
  title : String
  description : String
  instructions : Option String
deriving DecidableEq

/-- A section entry of the generated table of contents (`Toc` in `index.ts`). -/
structure TocSection where
  slug : String
  title : String
  description : String
  instructions : Option String
  parts : Option (List TocPart)
deriving DecidableEq

/-- The table of contents (`interface Toc` in `index.ts`). -/
structure Toc where
  sections : List TocSection
deriving DecidableEq

/-- A generated part (`interface DocPart` in `index.ts`). -/
structure DocPart where
  title : String
  content : String
deriving DecidableEq

/-- A generated section (`interface DocSection` in `index.ts`).
`parts` is `Option` because the TypeScript field is optional;
the generator initializes it to `[]` and pushes generated parts. -/
structure DocSection where
  slug : String
  title : String
  content : String
  parts : Option (List DocPart)
deriving DecidableEq

/-- A JavaScript value as stored in the cache (`Record<string, any>`),
restricted to the value shapes this program writes: `null`, numbers,
strings, the TOC object, and TOC section objects (the Done markers). -/
inductive CVal where
  | vnull
  | vnum (n : Int)
  | vstr (s : String)
  | vtoc (t : Toc)
  | vsection (s : TocSection)
deriving DecidableEq

/-- JavaScript truthiness for the stored value shapes: `null` is falsy,
`0` and `""` are falsy, any other number or string is truthy, and
objects are always truthy. -/
def truthy : CVal → Bool
  | .vnull => false
  | .vnum n => n != 0
  | .vstr s => s != ""
  | .vtoc _ => true
  | .vsection _ => true

/-- A JavaScript object: association list of fields in insertion order. -/
abbrev Obj := List (String × CVal)

/-- Property read `o[k]`: the value of the first binding of `k`
(`undefined`, i.e. `none`, when `k` is absent). -/
def jget (o : Obj) (k : String) : Option CVal :=
  match o with
  | [] => none
  | (k', v) :: rest => if k' = k then some v else jget rest k

/-- `k in o` (key presence). -/
def objHas (o : Obj) (k : String) : Bool := (jget o k).isSome

/-- The JavaScript spread merge `{...old, ...new}`: keys of `old` in order
with values overridden by `new` where present, followed by the keys of
`new` that are not in `old`, in their order. -/
def ctxMerge (old new : Obj) : Obj :=
  old.map (fun p => match jget new p.1 with | some v => (p.1, v) | none => p)
  ++ new.filter (fun q => !(objHas old q.1))

/-- The process-wide cache state: the in-memory mirror (`let CONTEXT`) and
the durable per-name storage (`context/<name>.json.gz`, `none` = no file). -/
structure CacheState where
  mirror : Option Obj
  disk : String → Option Obj

/-- `loadContext(name)` (`index.ts` lines 49-61): return the in-memory
mirror when it exists; otherwise read and parse the file for `name`,
or return the empty mapping when no file exists.  (This variant does not
install the freshly read data into the mirror.) -/
def loadContext (s : CacheState) (name : String) : Obj :=
  match s.mirror with
  | some m => m
  | none =>
    match s.disk name with
    | some d => d
    | none => []

/-- `getFromContext(contextName, key)` (`index.ts` lines 64-76): load the
context and return `contextData[key]` when it is truthy, `null` otherwise. -/
def getFromContext (s : CacheState) (name key : String) : Option CVal :=
  match jget (loadContext s name) key with
  | some v => if truthy v then some v else none
  | none => none

/-- `saveToContext(contextName, data)` (`index.ts` lines 78-98): load the
context, merge `data` over it with object spread, write the compressed
merged mapping to the file for `name`, and install it as the mirror. -/
def saveToContext (s : CacheState) (name : String) (data : Obj) : CacheState :=
  let contextData := loadContext s name
  let newContext := ctxMerge contextData data
  { mirror := some newContext
    disk := fun n => if n = name then some newContext else s.disk n }

theorem jget_append (a b : Obj) (k : String) :
    jget (a ++ b) k =
      match jget a k with
      | some v => some v
      | none => jget b k := by
  induction a with
  | nil => rfl
  | cons hd tl ih =>
    obtain ⟨k', v⟩ := hd
    by_cases h : k' = k <;> simp [jget, h, ih]

theorem jget_map_override (old new : Obj) (k : String) :
    jget (old.map (fun p => match jget new p.1 with | some v => (p.1, v) | none => p)) k =
      match jget old k with
      | some v => some (match jget new k with | some w => w | none => v)
      | none => none := by
  induction old with
  | nil => rfl
  | cons hd tl ih =>
    obtain ⟨k', v⟩ := hd
    by_cases h : k' = k
    · subst h
      cases hn : jget new k' <;> simp [jget, hn]
    · cases hn : jget new k' <;> simp [jget, h, hn, ih]

theorem jget_filter_not_has_of_has (old new : Obj) (k : String)
    (h : jget old k ≠ none) :
    jget (new.filter (fun q => !(objHas old q.1))) k = none := by
  induction new with
  | nil => rfl
  | cons q tl ih =>
    obtain ⟨kq, vq⟩ := q
    by_cases hk : kq = k
    · subst hk
      have : objHas old kq = true := by
        unfold objHas
        cases hv : jget old kq
        · exact absurd hv h
        · rfl
      simp [List.filter, this, ih]
    · by_cases hp : objHas old kq <;> simp [List.filter, hp, jget, hk, ih]

theorem jget_filter_not_has_of_absent (old new : Obj) (k : String)
    (h : jget old k = none) :
    jget (new.filter (fun q => !(objHas old q.1))) k = jget new k := by
  induction new with
  | nil => rfl
  | cons q tl ih =>
    obtain ⟨kq, vq⟩ := q
    by_cases hk : kq = k
    · subst hk
      have : objHas old kq = false := by unfold objHas; rw [h]; rfl
      simp [List.filter, this, jget, ih]
    · by_cases hp : objHas old kq <;> simp [List.filter, hp, jget, hk, ih]

/-- Reads through the spread merge `{...old, ...new}`: per key, `new`
wins when it binds the key, otherwise the old binding survives. -/
theorem ctxMerge_jget (old new : Obj) (k : String) :
    jget (ctxMerge old new) k =
      match jget new k with
      | some v => some v
      | none => jget old k := by
  unfold ctxMerge
  rw [jget_append, jget_map_override]
  cases ho : jget old k with
  | none =>
    rw [jget_filter_not_has_of_absent old new k ho]
    cases jget new k <;> rfl
  | some w =>
    have : jget old k ≠ none := by rw [ho]; exact fun hc => Option.noConfusion hc
    rw [jget_filter_not_has_of_has old new k this]
    cases jget new k <;> rfl

theorem loadContext_saveToContext (s : CacheState) (name : String) (data : Obj) :
    loadContext (saveToContext s name data) name = ctxMerge (loadContext s name) data := rfl

/-- C3: saving `{a:1}` then `{b:2}` makes a load return a mapping with
`a ↦ 1` and `b ↦ 2`; a later `{a:3}` yields `a ↦ 3`, `b ↦ 2`: per-key
last-write-wins that preserves unmentioned keys, from any starting state. -/
theorem save_save_load_merge (s : CacheState) (name : String) :
    jget (loadContext (saveToContext (saveToContext s name [("a", .vnum 1)]) name
        [("b", .vnum 2)]) name) "a" = some (.vnum 1) ∧
    jget (loadContext (saveToContext (saveToContext s name [("a", .vnum 1)]) name
        [("b", .vnum 2)]) name) "b" = some (.vnum 2) ∧
    jget (loadContext (saveToContext (saveToContext (saveToContext s name [("a", .vnum 1)])
        name [("b", .vnum 2)]) name [("a", .vnum 3)]) name) "a" = some (.vnum 3) ∧
    jget (loadContext (saveToContext (saveToContext (saveToContext s name [("a", .vnum 1)])
        name [("b", .vnum 2)]) name [("a", .vnum 3)]) name) "b" = some (.vnum 2) := by
  simp only [loadContext_saveToContext, ctxMerge_jget, jget]
  simp

/-- A cache state in which the in-memory mirror and the durable on-disk
state of context `"ctx"` disagree: the mirror holds `{a:1}` while the
file holds `{c:9}`. -/
def divergedState : CacheState :=
  { mirror := some [("a", .vnum 1)]
    disk := fun n => if n = "ctx" then some [("c", .vnum 9)] else none }

/-- C4 counterexample: `saveToContext` does NOT merge against the latest
durable on-disk state.  In `divergedState` the durable state of `"ctx"`
binds `c ↦ 9` and the partial mapping `{b:2}` does not mention `c`, yet
the persisted merged result drops `c` (the merge used the in-memory
mirror `{a:1}` instead), while the mirror key `a` survives. -/
theorem saveToContext_ignores_disk :
    jget ((divergedState.disk "ctx").getD []) "c" = some (.vnum 9) ∧
    jget (((saveToContext divergedState "ctx" [("b", .vnum 2)]).disk "ctx").getD []) "c"
      = none ∧
    jget (((saveToContext divergedState "ctx" [("b", .vnum 2)]).disk "ctx").getD []) "a"
      = some (.vnum 1) := by
  refine ⟨rfl, rfl, rfl⟩

/-- C4 amended: every `saveToContext` merges the partial mapping over the
state returned by `loadContext` — which is the in-memory mirror when one
exists, and the latest durable on-disk state only when no mirror is
loaded — then persists the merged result.  Per key the partial mapping
wins and unmentioned keys of the loaded state are preserved
(last-write-wins at the key level). -/
theorem saveToContext_merges_loaded (s : CacheState) (name : String) (data : Obj)
    (k : String) :
    jget (((saveToContext s name data).disk name).getD []) k =
      (match jget data k with
        | some v => some v
        | none => jget (loadContext s name) k) ∧
    (s.mirror = none → loadContext s name = (s.disk name).getD []) := by
  constructor
  · have hdisk : ((saveToContext s name data).disk name) =
        some (ctxMerge (loadContext s name) data) := by
      simp [saveToContext]
    rw [hdisk]
    simpa using ctxMerge_jget (loadContext s name) data k
  · intro hm
    unfold loadContext
    rw [hm]
    cases s.disk name <;> rfl

/-- Witness for `saveToContext_merges_loaded` at a mirror-free concrete state. -/
theorem saveToContext_merges_loaded_witness :
    jget (((saveToContext ⟨none, fun _ => some [("c", .vnum 9)]⟩ "ctx"
        [("b", .vnum 2)]).disk "ctx").getD []) "c" =
      (match jget [("b", .vnum 2)] "c" with
        | some v => some v
        | none => jget (loadContext ⟨none, fun _ => some [("c", .vnum 9)]⟩ "ctx") "c") ∧
    ((⟨none, fun _ => some [("c", CVal.vnum 9)]⟩ : CacheState).mirror = none →
      loadContext ⟨none, fun _ => some [("c", .vnum 9)]⟩ "ctx" =
        ((⟨none, fun _ => some [("c", CVal.vnum 9)]⟩ : CacheState).disk "ctx").getD []) :=
  saveToContext_merges_loaded ⟨none, fun _ => some [("c", .vnum 9)]⟩ "ctx"
    [("b", .vnum 2)] "c"

/-- C7: `getFromContext` returns the stored value exactly when it is
present and truthy; an absent key and a falsy stored value (empty string,
zero, null) both yield the absent result `null`, so they are
indistinguishable to callers. -/
theorem getFromContext_truthy_only (s : CacheState) (name k : String) :
    (∀ v, getFromContext s name k = some v ↔
      (jget (loadContext s name) k = some v ∧ truthy v = true)) ∧
    (jget (loadContext s name) k = none → getFromContext s name k = none) ∧
    (∀ v, jget (loadContext s name) k = some v → truthy v = false →
      getFromContext s name k = none) := by
  unfold getFromContext
  refine ⟨fun v => ?_, fun h => by rw [h], fun v hv hf => by rw [hv]; simp [hf]⟩
  cases h : jget (loadContext s name) k with
  | none =>
    simp only [h]
    constructor
    · intro hc; exact absurd hc (by simp)
    · rintro ⟨hc, -⟩; exact absurd hc (by simp)
  | some w =>
    simp only [h]
    by_cases ht : truthy w
    · simp only [ht, if_pos rfl]
      constructor
      · rintro hvw
        have : w = v := by injection hvw
        subst this; exact ⟨rfl, ht⟩
      · rintro ⟨hvw, -⟩
        have : w = v := by injection hvw
        subst this; rfl
    · simp only [Bool.not_eq_true] at ht
      simp only [ht]
      constructor
      · intro hc; exact absurd hc (by simp)
      · rintro ⟨hvw, htv⟩
        have : w = v := by injection hvw
        subst this
        rw [ht] at htv
        exact absurd htv (by simp)

/-- Witness: in a context caching `k ↦ ""` (a falsy value), `getFromContext`
returns `null`, exactly as for an absent key. -/
theorem getFromContext_truthy_only_witness :
    getFromContext ⟨some [("k", .vstr "")], fun _ => none⟩ "ctx" "k" = none :=
  (getFromContext_truthy_only ⟨some [("k", .vstr "")], fun _ => none⟩ "ctx" "k").2.2
    (.vstr "") rfl rfl

/-- `generateDocFromParts(docParts)` (`index.ts` lines 101-120), embedded
faithfully: for each section of the ordered record, the accumulator is
REASSIGNED (`doc = section.content + "\n\n"`, not `+=`), after which the
section's parts are appended.  (The guard `if (!docParts[sectionName])
continue` never fires: record values are objects, hence truthy.) -/
def generateDocFromParts (docParts : List (String × DocSection)) : String :=
  docParts.foldl
    (fun _doc p =>
      let doc := p.2.content ++ "\n\n"
      (p.2.parts.getD []).foldl (fun d subPart => d ++ subPart.content ++ "\n\n") doc)
    ""

/-- C2 evaluated at the failing input: on the two-section record
`{s1 ↦ content "A", s2 ↦ content "B"}` (no parts) the assembler returns
only the last section's content `"B\n\n"`, not the claimed concatenation
`"A\n\nB\n\n"` — each loop iteration overwrites the accumulator. -/
theorem generateDocFromParts_drops_earlier_sections :
    generateDocFromParts
      [("s1", ⟨"s1", "S1", "A", none⟩), ("s2", ⟨"s2", "S2", "B", none⟩)] = "B\n\n" ∧
    ("B\n\n" : String) ≠ "A\n\n" ++ "B\n\n" := by
  refine ⟨rfl, by decide⟩

/-- The chunk-collecting loop of `chunkArray` (unnamed bulk-summarization
module, lines 5-14): starting indices `0, n, 2n, ...` while below the
array length, pushing `arr.slice(i, i + n)`.  (With `chunkSize = 0` the
JavaScript loop never terminates; the sole caller passes 50, so that
branch is modelled as unreachable and returns no chunks.) -/
def chunksGo (n : Nat) (l : List α) : List (List α) :=
  if l.isEmpty then []
  else if n = 0 then []
  else l.take n :: chunksGo n (l.drop n)
termination_by l.length
decreasing_by
  simp only [List.length_drop]
  rename_i hl hn
  have h1 : l ≠ [] := by
    intro hc
    subst hc
    exact hl rfl
  have h2 : 0 < l.length := List.length_pos.mpr h1
  have h3 : 0 < n := Nat.pos_of_ne_zero hn
  omega

theorem chunksGo_nil (n : Nat) : chunksGo n ([] : List α) = [] := by
  rw [chunksGo]
  rfl

theorem chunksGo_cons (n : Nat) (l : List α) (hl : l ≠ []) (hn : n ≠ 0) :
    chunksGo n l = l.take n :: chunksGo n (l.drop n) := by
  rw [chunksGo]
  have : l.isEmpty = false := by
    cases l with
    | nil => exact absurd rfl hl
    | cons a rest => rfl
  simp [this, hn]

theorem chunksGo_join (n : Nat) (hn : n ≠ 0) (l : List α) :
    (chunksGo n l).flatten = l := by
  generalize hk : l.length = k
  induction k using Nat.strong_induction_on generalizing l with
  | _ k ih =>
    by_cases hl : l = []
    · subst hl
      simp [chunksGo_nil]
    · rw [chunksGo_cons n l hl hn]
      have hlen : (l.drop n).length < k := by
        subst hk
        simp only [List.length_drop]
        have h1 : 0 < l.length := List.length_pos.mpr hl
        have h2 : 0 < n := Nat.pos_of_ne_zero hn
        omega
      rw [List.flatten_cons, ih (l.drop n).length hlen (l.drop n) rfl]
      exact List.take_append_drop n l

theorem chunksGo_eq_nil_iff (n : Nat) (hn : n ≠ 0) (l : List α) :
    chunksGo n l = [] ↔ l = [] := by
  constructor
  · intro h
    by_contra hl
    rw [chunksGo_cons n l hl hn] at h
    exact List.noConfusion h
  · intro h; subst h; exact chunksGo_nil n

theorem chunksGo_mem (n : Nat) (hn : n ≠ 0) (l : List α) :
    ∀ c ∈ chunksGo n l, c ≠ [] ∧ c.length ≤ n := by
  generalize hk : l.length = k
  induction k using Nat.strong_induction_on generalizing l with
  | _ k ih =>
    by_cases hl : l = []
    · subst hl
      simp [chunksGo_nil]
    · rw [chunksGo_cons n l hl hn]
      intro c hc
      rcases List.mem_cons.mp hc with h | h
      · subst h
        constructor
        · simp only [ne_eq, List.take_eq_nil_iff]
          push_neg
          exact ⟨hn, hl⟩
        · simpa using Nat.min_le_left n l.length
      · have hlen : (l.drop n).length < k := by
          subst hk
          simp only [List.length_drop]
          have h1 : 0 < l.length := List.length_pos.mpr hl
          have h2 : 0 < n := Nat.pos_of_ne_zero hn
          omega
        exact ih (l.drop n).length hlen (l.drop n) rfl c h

theorem chunksGo_dropLast (n : Nat) (hn : n ≠ 0) (l : List α) :
    ∀ c ∈ (chunksGo n l).dropLast, c.length = n := by
  generalize hk : l.length = k
  induction k using Nat.strong_induction_on generalizing l with
  | _ k ih =>
    by_cases hl : l = []
    · subst hl
      simp [chunksGo_nil]
    · rw [chunksGo_cons n l hl hn]
      have hlen : (l.drop n).length < k := by
        subst hk
        simp only [List.length_drop]
        have h1 : 0 < l.length := List.length_pos.mpr hl
        have h2 : 0 < n := Nat.pos_of_ne_zero hn
        omega
      cases hrest : chunksGo n (l.drop n) with
      | nil => simp
      | cons r rs =>
        intro c hc
        rw [List.dropLast_cons₂] at hc
        rcases List.mem_cons.mp hc with h | h
        · subst h
          have hdrop : l.drop n ≠ [] := by
            intro hd
            rw [(chunksGo_eq_nil_iff n hn (l.drop n)).mpr hd] at hrest
            exact List.noConfusion hrest
          have : n < l.length := by
            by_contra hle
            push_neg at hle
            exact hdrop (List.drop_eq_nil_of_le hle)
          simp only [List.length_take]
          omega
        · rw [← hrest] at h
          exact ih (l.drop n).length hlen (l.drop n) rfl c h

/-- `chunkArray(arr, chunkSize)` (unnamed bulk-summarization module,
lines 5-14): collect slices, then read
`chunks[chunks.length - 1].length` — on an empty chunk list that indexes
`undefined` and throws a `TypeError`, modelled as `none`. -/
def chunkArray (arr : List α) (chunkSize : Nat) : Option (List (List α)) :=
  match (chunksGo chunkSize arr).getLast? with
  | none => none
  | some _ => some (chunksGo chunkSize arr)

/-- `truthy` lifted over property reads (`undefined` is falsy). -/
def truthyOpt : Option CVal → Bool
  | some v => truthy v
  | none => false

/-- `filesByKey[key].filter(f => !context[f])` (unnamed bulk-summarization
module, line 25): the files of a key that are not already cached. -/
def filesToProcess (context : Obj) (files : List String) : List String :=
  files.filter (fun f => !(truthyOpt (jget context f)))

/-- `chunkArray(filesToProcess, 50)` (unnamed bulk-summarization module,
line 28): the batches the per-key loop submits. -/
def summarizeKeyChunks (context : Obj) (files : List String) :
    Option (List (List String)) :=
  chunkArray (filesToProcess context files) 50

/-- C9: for a non-empty array `chunkArray` returns consecutive chunks of
at most `n` elements (all but the last exactly `n`) whose concatenation
is the input; for the empty array it throws (reading the length of the
last chunk of an empty chunk list), so the bulk file-summarization step
fails for a key whose files are all already cached. -/
theorem chunkArray_spec (arr : List α) (n : Nat) (hn : 0 < n) :
    (arr ≠ [] → ∃ cs, chunkArray arr n = some cs ∧
        cs.flatten = arr ∧ cs ≠ [] ∧
        (∀ c ∈ cs, c ≠ [] ∧ c.length ≤ n) ∧
        (∀ c ∈ cs.dropLast, c.length = n)) ∧
    chunkArray ([] : List α) n = none ∧
    (∀ (context : Obj) (files : List String),
      (∀ f ∈ files, truthyOpt (jget context f) = true) →
      summarizeKeyChunks context files = none) := by
  have hn0 : n ≠ 0 := Nat.pos_iff_ne_zero.mp hn
  have hempty : chunkArray ([] : List α) n = none := by
    simp [chunkArray, chunksGo_nil]
  refine ⟨fun harr => ?_, hempty, fun context files hall => ?_⟩
  · refine ⟨chunksGo n arr, ?_, chunksGo_join n hn0 arr,
      (by rwa [ne_eq, chunksGo_eq_nil_iff n hn0 arr]),
      chunksGo_mem n hn0 arr, chunksGo_dropLast n hn0 arr⟩
    unfold chunkArray
    have hne : chunksGo n arr ≠ [] := by rwa [ne_eq, chunksGo_eq_nil_iff n hn0 arr]
    cases hlast : (chunksGo n arr).getLast? with
    | none => exact absurd (List.getLast?_eq_none_iff.mp hlast) hne
    | some c => rfl
  · have hfp : filesToProcess context files = [] := by
      unfold filesToProcess
      rw [List.filter_eq_nil_iff]
      intro f hf
      rw [hall f hf]
      simp
    unfold summarizeKeyChunks
    rw [hfp]
    simp [chunkArray, chunksGo_nil]

/-- Witness for `chunkArray_spec` at `arr = [1, 2, 3]`, `n = 2`. -/
theorem chunkArray_spec_witness :
    (0 : Nat) < 2 ∧
    ((([1, 2, 3] : List Nat) ≠ [] → ∃ cs, chunkArray [1, 2, 3] 2 = some cs ∧
        cs.flatten = [1, 2, 3] ∧ cs ≠ [] ∧
        (∀ c ∈ cs, c ≠ [] ∧ c.length ≤ 2) ∧
        (∀ c ∈ cs.dropLast, c.length = 2)) ∧
      chunkArray ([] : List Nat) 2 = none ∧
      (∀ (context : Obj) (files : List String),
        (∀ f ∈ files, truthyOpt (jget context f) = true) →
        summarizeKeyChunks context files = none)) :=
  ⟨by decide, chunkArray_spec [1, 2, 3] 2 (by decide)⟩

/-- Substring containment over character lists (leftmost scan). -/
def listIncludes (pat : List Char) : List Char → Bool
  | [] => pat.isEmpty
  | a :: t => pat.isPrefixOf (a :: t) || listIncludes pat t

/-- JavaScript `s.includes(pat)`. -/
def jsIncludes (s pat : String) : Bool := listIncludes pat.toList s.toList

/-- The outcome of the i-th remote `executeByName` call of a run:
either the returned `result` text, or the rejection's error message. -/
abbrev Oracle := Nat → Except String String

/-- `executeGeneration` (`index.ts` lines 214-231): forwards the remote
call; a rejection is re-thrown as
`new Error('Failed to generate part: ' + err.message)`. -/
def executeGeneration (oracle : Oracle) (callIdx : Nat) : Except String String :=
  match oracle callIdx with
  | .ok res => .ok res
  | .error msg => .error ("Failed to generate part: " ++ msg)

/-- The prompt-context fields of one remote call that the claims observe:
`part_name` and `previously_generated`. -/
structure GenPrompt where
  part_name : String
  previously_generated : String
deriving DecidableEq

/-- The part loop inside the try block (`generate-api-doc.ts` lines
170-185): one remote call per declared part, pushing each generated part
onto `generatedSection.parts`; a rejection aborts the loop with the
thrown (wrapped) message, keeping the parts pushed before it.
Returns (pushed parts, prompts issued, next call index, thrown error). -/
def runParts (oracle : Oracle) (docState secTitle : String) :
    Nat → List TocPart → List DocPart × List GenPrompt × Nat × Option String
  | k, [] => ([], [], k, none)
  | k, part :: rest =>
    match executeGeneration oracle k with
    | .error e => ([], [⟨secTitle ++ " > " ++ part.title, docState⟩], k + 1, some e)
    | .ok c =>
      match runParts oracle docState secTitle (k + 1) rest with
      | (ps, plog, nextCall, err) =>
        (⟨part.title, c⟩ :: ps, ⟨secTitle ++ " > " ++ part.title, docState⟩ :: plog,
          nextCall, err)

/-- One iteration of the try block (`generate-api-doc.ts` lines 155-187):
the section-level call assigning `res` and `generatedSection`, then the
part loop.  The first component is the assignment this attempt made to
`(res, generatedSection)` — `none` when the section call itself threw
before assigning.  Returns (assignment, prompts, next call index, error). -/
def attemptOnce (oracle : Oracle) (docState : String) (sec : TocSection) (k : Nat) :
    Option (String × DocSection) × List GenPrompt × Nat × Option String :=
  match executeGeneration oracle k with
  | .error e => (none, [⟨sec.title, docState⟩], k + 1, some e)
  | .ok c =>
    match runParts oracle docState sec.title (k + 1) (sec.parts.getD []) with
    | (ps, plog, nextCall, err) =>
      (some (c, ⟨sec.slug, sec.title, c, some ps⟩), ⟨sec.title, docState⟩ :: plog,
        nextCall, err)

/-- The loop-carried variables of the retry loop: `res` and
`generatedSection` (which survive across attempts — they are declared
outside the `for`), the running remote-call counter, and the prompts
issued so far. -/
structure AttemptState where
  res : Option String
  gsec : Option DocSection
  calls : Nat
  log : List GenPrompt
deriving DecidableEq

/-- How the retry loop ended. -/
inductive LoopExit where
  | broke
  | fell
  | thrown (msg : String)
deriving DecidableEq

/-- The loop-carried variables after one attempt: `res` and
`generatedSection` keep their previous (stale) values when the attempt's
section call threw before assigning them. -/
def stepState (st : AttemptState) (upd : Option (String × DocSection))
    (alog : List GenPrompt) (nextCall : Nat) : AttemptState :=
  { res := match upd with | some u => some u.1 | none => st.res
    gsec := match upd with | some u => some u.2 | none => st.gsec
    calls := nextCall
    log := st.log ++ alog }

/-- The retry loop `for (let i = 0; i < 5; i++)` (`generate-api-doc.ts`
lines 154-196): run the try block; on success `break`; on an error whose
message includes "500" (and `i < 5`, always true inside the loop) wait
with backoff and retry; otherwise re-throw.  `fuel` is the number of
remaining iterations (initially 5), `i` the loop counter. -/
def retryLoop (oracle : Oracle) (docState : String) (sec : TocSection) :
    Nat → Nat → AttemptState → AttemptState × LoopExit
  | _, 0, st => (st, .fell)
  | i, fuel + 1, st =>
    match attemptOnce oracle docState sec st.calls with
    | (upd, alog, nextCall, err) =>
      match err with
      | none => (stepState st upd alog nextCall, .broke)
      | some e =>
        if jsIncludes e "500" && decide (i < 5) then
          retryLoop oracle docState sec (i + 1) fuel (stepState st upd alog nextCall)
        else (stepState st upd alog nextCall, .thrown e)

/-- The per-run state the section walk threads: the cache, the number of
remote calls issued, and the prompts issued. -/
structure WalkState where
  cache : CacheState
  calls : Nat
  log : List GenPrompt

/-- Control flow after one section: continue the walk, or end the run
(`.stop none` is the early `return` after the `!res?.result ||
!generatedSection` check; `.stop (some e)` is a propagating exception). -/
inductive Flow where
  | next
  | stop (err : Option String)
deriving DecidableEq

/-- The post-loop check and Done-marker write (`generate-api-doc.ts`
lines 198-209): `if (!res?.result || !generatedSection) return;` —
otherwise persist `{ "section-{slug}": section }` and continue. -/
def afterLoop (name : String) (sec : TocSection) (st' : WalkState)
    (res : Option String) (gsec : Option DocSection) : WalkState × Flow :=
  match res, gsec with
  | some r, some _ =>
    if r != "" then
      ({ st' with
          cache :=
            saveToContext st'.cache name [("section-" ++ sec.slug, .vsection sec)] },
        .next)
    else (st', .stop none)
  | _, _ => (st', .stop none)

/-- One iteration of `for (const section of toc.sections)`
(`generate-api-doc.ts` lines 139-210): skip when the Done marker
`section-{slug}` is cached truthy; otherwise compute
`docState = generateDocFromParts(docParts)`, run the retry loop, and —
unless an exception propagates — run the post-loop check.  (`docParts` is
the walk's accumulator record; the source never inserts into it.) -/
def processSection (oracle : Oracle) (name : String)
    (docParts : List (String × DocSection)) (st : WalkState) (sec : TocSection) :
    WalkState × Flow :=
  match getFromContext st.cache name ("section-" ++ sec.slug) with
  | some _ => (st, .next)
  | none =>
    match retryLoop oracle (generateDocFromParts docParts) sec 0 5
        ⟨none, none, st.calls, []⟩ with
    | (ast, .thrown e) =>
      ({ st with calls := ast.calls, log := st.log ++ ast.log }, .stop (some e))
    | (ast, _) =>
      afterLoop name sec { st with calls := ast.calls, log := st.log ++ ast.log }
        ast.res ast.gsec

/-- The section walk of `generate` (`generate-api-doc.ts` lines 138-210):
process the sections in declared order, stopping early when a section's
processing ends the run. -/
def processSections (oracle : Oracle) (name : String)
    (docParts : List (String × DocSection)) :
    List TocSection → WalkState → WalkState × Flow
  | [], st => (st, .next)
  | sec :: rest, st =>
    match processSection oracle name docParts st sec with
    | (st', .next) => processSections oracle name docParts rest st'
    | (st', .stop e) => (st', .stop e)

/-- The TOC step of the API-doc `generate` (`generate-api-doc.ts` lines
130-136): use the cached `"toc"` when truthy (no remote call); otherwise
issue one `generateToc` call and persist the result under `"toc"`.
The `Nat` is the number of TOC-generation remote calls issued. -/
def apiTocPhase (tocOracle : Except String Toc) (s : CacheState) (name : String) :
    Except String (CVal × CacheState × Nat) :=
  match getFromContext s name "toc" with
  | some v => .ok (v, s, 0)
  | none =>
    match tocOracle with
    | .ok t => .ok (.vtoc t, saveToContext s name [("toc", .vtoc t)], 1)
    | .error e => .error ("Failed to generate part: " ++ e)

/-- The TOC step of the CLI-doc `generate` (`generate-cli-doc.ts` lines
41-43): unconditionally issue one `generateToc` call; the cache is
neither consulted nor written (the TOC only goes to `toc.json` on disk). -/
def cliTocPhase (tocOracle : Except String Toc) (s : CacheState) :
    Except String (Toc × CacheState × Nat) :=
  match tocOracle with
  | .ok t => .ok (t, s, 1)
  | .error e => .error ("Failed to generate part: " ++ e)

/-- The backtick character (U+0060). -/
def btick : Char := Char.ofNat 96

/-- A character of the regex class `[\w-]`. -/
def isWordDash (c : Char) : Bool := c.isAlphanum || c = '_' || c = '-'

/-- Match the regex `\x60\x60\x60[\w-]*\n` at the head of the list: three
backticks, a greedy run of word/dash characters (which cannot contain the
`\n`, so no backtracking arises), then a newline.  Returns the remainder
after the match. -/
def matchFence (l : List Char) : Option (List Char) :=
  match l with
  | a :: b :: c :: rest =>
    if a = btick ∧ b = btick ∧ c = btick then
      match rest.dropWhile isWordDash with
      | '\n' :: r => some r
      | _ => none
    else none
  | _ => none

theorem dropWhile_length_le (p : Char → Bool) (l : List Char) :
    (l.dropWhile p).length ≤ l.length := by
  induction l with
  | nil => simp
  | cons a t ih =>
    by_cases h : p a <;> simp [List.dropWhile_cons, h] <;> omega

theorem matchFence_length (l r : List Char) (h : matchFence l = some r) :
    r.length < l.length := by
  match l with
  | [] => exact absurd h (by simp [matchFence])
  | [a] => exact absurd h (by simp [matchFence])
  | [a, b] => exact absurd h (by simp [matchFence])
  | a :: b :: c :: rest =>
    simp only [matchFence] at h
    by_cases hb : a = btick ∧ b = btick ∧ c = btick
    · rw [if_pos hb] at h
      have hle : (rest.dropWhile isWordDash).length ≤ rest.length :=
        dropWhile_length_le isWordDash rest
      cases hd : rest.dropWhile isWordDash with
      | nil => rw [hd] at h; exact absurd h (by simp)
      | cons x xs =>
        rw [hd] at h hle
        split at h
        · rename_i r' heq
          injection h with hr
          injection heq with hx1 hx2
          subst hr
          subst hx2
          simp only [List.length_cons] at hle ⊢
          omega
        · exact absurd h (by simp)
    · rw [if_neg hb] at h
      exact absurd h (by simp)

/-- First pass of `removeCodeBlockMarkers` (`generate-openapi.ts` line
264): the global replacement of `\x60\x60\x60[\w-]*\n` by the empty
string — a leftmost non-overlapping scan deleting each match. -/
def stripFenceLines (l : List Char) : List Char :=
  match h : matchFence l with
  | some r => stripFenceLines r
  | none =>
    match l with
    | [] => []
    | c :: rest => c :: stripFenceLines rest
termination_by l.length
decreasing_by
  · exact matchFence_length l r h
  · simp

/-- Second pass of `removeCodeBlockMarkers`: the global replacement of
three consecutive backticks by the empty string. -/
def stripTicks : List Char → List Char
  | a :: b :: c :: rest =>
    if a = btick ∧ b = btick ∧ c = btick then stripTicks rest
    else a :: stripTicks (b :: c :: rest)
  | l => l

/-- `removeCodeBlockMarkers(text)` (`generate-openapi.ts` lines 263-265):
`text.replace(/\x60\x60\x60[\w-]*\n/g, "").replace(/\x60\x60\x60/g, "")`. -/
def removeCodeBlockMarkers (text : String) : String :=
  String.mk (stripTicks (stripFenceLines text.toList))

/-- `validateYaml(text)` (`generate-openapi.ts` lines 252-261): strip the
code-block fence markers, then `YAML.parse` the result purely as a check —
a parse failure is re-thrown (modelled as `.error`), success returns the
stripped text.  The YAML parser itself is external; it is abstracted as
the predicate `yparse`. -/
def validateYaml (yparse : String → Bool) (text : String) : Except String String :=
  let generatedPart := removeCodeBlockMarkers text
  if yparse generatedPart then .ok generatedPart
  else .error "YAML parse error"

/-- `generatePath(client, path, options)` (`generate-openapi.ts` lines
214-250): skip when the path's cache entry exists (truthy); otherwise
issue the remote call, validate the result as YAML, and only then persist
the stripped text under the path id.  A thrown error carries the cache
state at the throw point (nothing was persisted before it). -/
def generatePath (yparse : String → Bool) (oracleResult : Except String String)
    (s : CacheState) (name pathId : String) :
    Except (String × CacheState) CacheState :=
  match getFromContext s name pathId with
  | some _ => .ok s
  | none =>
    match oracleResult with
    | .error e => .error ("Failed to generate part: " ++ e, s)
    | .ok text =>
      match validateYaml yparse text with
      | .error msg => .error (msg, s)
      | .ok result => .ok (saveToContext s name [(pathId, .vstr result)])

theorem afterLoop_log (name : String) (sec : TocSection) (st' : WalkState)
    (res : Option String) (gsec : Option DocSection) :
    (afterLoop name sec st' res gsec).1.log = st'.log := by
  unfold afterLoop
  cases res with
  | none => rfl
  | some r =>
    cases gsec with
    | none => rfl
    | some g => by_cases h : (r != "") = true <;> simp [h]

theorem runParts_prompts (oracle : Oracle) (docState secTitle : String)
    (parts : List TocPart) (k : Nat) :
    ∀ p ∈ (runParts oracle docState secTitle k parts).2.1,
      p.previously_generated = docState := by
  induction parts generalizing k with
  | nil => intro p hp; exact absurd hp (by simp [runParts])
  | cons part rest ih =>
    intro p hp
    unfold runParts at hp
    split at hp
    · simp only [List.mem_singleton] at hp
      subst hp; rfl
    · split at hp
      rename_i ps plog nextCall err heq
      simp only [List.mem_cons] at hp
      rcases hp with hp | hp
      · subst hp; rfl
      · have h0 := ih (k + 1)
        rw [heq] at h0
        exact h0 p hp

theorem attemptOnce_prompts (oracle : Oracle) (docState : String)
    (sec : TocSection) (k : Nat) :
    ∀ p ∈ (attemptOnce oracle docState sec k).2.1,
      p.previously_generated = docState := by
  intro p hp
  unfold attemptOnce at hp
  split at hp
  · simp only [List.mem_singleton] at hp
    subst hp; rfl
  · split at hp
    rename_i ps plog nextCall err heq
    simp only [List.mem_cons] at hp
    rcases hp with hp | hp
    · subst hp; rfl
    · have h0 := runParts_prompts oracle docState sec.title (sec.parts.getD []) (k + 1)
      rw [heq] at h0
      exact h0 p hp

theorem retryLoop_prompts (oracle : Oracle) (docState : String) (sec : TocSection)
    (fuel : Nat) :
    ∀ (i : Nat) (st : AttemptState),
      ∀ p ∈ (retryLoop oracle docState sec i fuel st).1.log,
        p ∈ st.log ∨ p.previously_generated = docState := by
  induction fuel with
  | zero => intro i st p hp; exact Or.inl hp
  | succ fuel ih =>
    intro i st p hp
    unfold retryLoop at hp
    split at hp
    rename_i upd alog nextCall err ha
    have halog : ∀ q ∈ alog, q.previously_generated = docState := by
      have h0 := attemptOnce_prompts oracle docState sec st.calls
      rw [ha] at h0
      exact fun q hq => h0 q hq
    have hmem : ∀ q ∈ (stepState st upd alog nextCall).log,
        q ∈ st.log ∨ q.previously_generated = docState := by
      intro q hq
      rcases List.mem_append.mp hq with hq | hq
      · exact Or.inl hq
      · exact Or.inr (halog q hq)
    split at hp
    · exact hmem p hp
    · split at hp
      · rcases ih _ _ p hp with hin | hval
        · exact hmem p hin
        · exact Or.inr hval
      · exact hmem p hp

theorem processSection_prompts (oracle : Oracle) (name : String)
    (docParts : List (String × DocSection)) (st : WalkState) (sec : TocSection) :
    ∀ p ∈ (processSection oracle name docParts st sec).1.log,
      p ∈ st.log ∨ p.previously_generated = generateDocFromParts docParts := by
  intro p hp
  unfold processSection at hp
  split at hp
  · exact Or.inl hp
  · have hretry : ∀ (ast : AttemptState) (ex : LoopExit),
        retryLoop oracle (generateDocFromParts docParts) sec 0 5
          ⟨none, none, st.calls, []⟩ = (ast, ex) →
        ∀ q ∈ st.log ++ ast.log,
          q ∈ st.log ∨ q.previously_generated = generateDocFromParts docParts := by
      intro ast ex hr q hq
      rcases List.mem_append.mp hq with hq | hq
      · exact Or.inl hq
      · have h0 := retryLoop_prompts oracle (generateDocFromParts docParts) sec 5 0
          ⟨none, none, st.calls, []⟩
        rw [hr] at h0
        rcases h0 q hq with hin | hval
        · exact absurd hin (by simp)
        · exact Or.inr hval
    split at hp
    · rename_i ast e hr
      exact hretry ast (.thrown e) hr p hp
    · rename_i ast ex hne hr
      rw [afterLoop_log] at hp
      exact hretry ast ex hr p hp

theorem processSections_prompts (oracle : Oracle) (name : String)
    (docParts : List (String × DocSection)) (secs : List TocSection) :
    ∀ (st : WalkState),
      ∀ p ∈ (processSections oracle name docParts secs st).1.log,
        p ∈ st.log ∨ p.previously_generated = generateDocFromParts docParts := by
  induction secs with
  | nil => intro st p hp; exact Or.inl hp
  | cons sec rest ih =>
    intro st p hp
    unfold processSections at hp
    split at hp
    · rename_i st' heq
      rcases ih st' p hp with hin | hval
      · rcases processSection_prompts oracle name docParts st sec p
          (by rw [heq]; exact hin) with h | h
        · exact Or.inl h
        · exact Or.inr h
      · exact Or.inr hval
    · rename_i st' e heq
      rcases processSection_prompts oracle name docParts st sec p
        (by rw [heq]; exact hp) with h | h
      · exact Or.inl h
      · exact Or.inr h

/-- C1 (code bug): the `previously_generated` field the section walk puts
into every prompt context is the rendering of the `docParts` accumulator —
but `generate` never inserts anything into `docParts` (it stays `{}` for
the whole run), so every section and part call receives the EMPTY string.
Evaluated at the failing input — two sections where the first generates
content `"A"` — the second section's prompt carries `""`, not the claimed
rendering `"A\n\n"` of the completed first section. -/
theorem previously_generated_always_empty :
    (∀ (oracle : Oracle) (name : String) (secs : List TocSection) (st : WalkState),
      ∀ p ∈ (processSections oracle name [] secs st).1.log,
        p ∈ st.log ∨ p.previously_generated = "") ∧
    (processSections (fun k => if k = 0 then .ok "A" else .ok "B") "ctx" []
        [⟨"s1", "S1", "", none, none⟩, ⟨"s2", "S2", "", none, none⟩]
        ⟨⟨none, fun _ => none⟩, 0, []⟩).1.log =
      [⟨"S1", ""⟩, ⟨"S2", ""⟩] ∧
    ("" : String) ≠ "A\n\n" := by
  refine ⟨fun oracle name secs st => ?_, by decide, by decide⟩
  exact processSections_prompts oracle name [] secs st

/-- Witness for `previously_generated_always_empty`: its universal part
applied at the concrete two-section run, at the second section's prompt. -/
theorem previously_generated_always_empty_witness :
    (⟨"S2", ""⟩ : GenPrompt) ∈ (processSections
        (fun k => if k = 0 then .ok "A" else .ok "B") "ctx" []
        [⟨"s1", "S1", "", none, none⟩, ⟨"s2", "S2", "", none, none⟩]
        ⟨⟨none, fun _ => none⟩, 0, []⟩).1.log ∧
    ((⟨"S2", ""⟩ : GenPrompt) ∈ (⟨⟨none, fun _ => none⟩, 0, []⟩ : WalkState).log ∨
      (⟨"S2", ""⟩ : GenPrompt).previously_generated = "") :=
  ⟨by decide,
    previously_generated_always_empty.1 (fun k => if k = 0 then .ok "A" else .ok "B")
      "ctx" [⟨"s1", "S1", "", none, none⟩, ⟨"s2", "S2", "", none, none⟩]
      ⟨⟨none, fun _ => none⟩, 0, []⟩ ⟨"S2", ""⟩ (by decide)⟩

/-- The C5 failing input: the section-level call always succeeds, every
part-level call fails with a transient "500" message. -/
def c5Oracle : Oracle := fun k =>
  if k % 2 = 0 then .ok "SECTION" else .error "500 Internal Server Error"

/-- The C5 failing section: one declared part. -/
def c5Section : TocSection := ⟨"s1", "S1", "", none, some [⟨"p1", "P1", "", none⟩]⟩

/-- C5 (code bug) evaluated at the failing input: all 5 retry attempts
fail transiently (at the part-level call), yet the run does NOT abort —
`res` and `generatedSection` retain the last attempt's stale section-call
values, so the post-loop guard passes, the Done marker `section-s1` IS
persisted, and the walk continues, after exactly 10 remote calls
(5 section successes, 5 transient part failures). -/
theorem retry_exhaustion_still_marks_done :
    (processSection c5Oracle "ctx" [] ⟨⟨none, fun _ => none⟩, 0, []⟩ c5Section).2
      = .next ∧
    jget (loadContext
        (processSection c5Oracle "ctx" [] ⟨⟨none, fun _ => none⟩, 0, []⟩
          c5Section).1.cache "ctx") "section-s1" = some (.vsection c5Section) ∧
    (processSection c5Oracle "ctx" [] ⟨⟨none, fun _ => none⟩, 0, []⟩
        c5Section).1.calls = 10 := by
  refine ⟨by decide, by decide, by decide⟩

theorem getFromContext_of_truthy (s : CacheState) (name key : String) (v : CVal)
    (hv : jget (loadContext s name) key = some v) (ht : truthy v = true) :
    getFromContext s name key = some v := by
  unfold getFromContext
  rw [hv]
  show (if truthy v = true then some v else none) = some v
  rw [ht]
  rfl

theorem jget_save_other (s : CacheState) (name key k : String) (v : CVal)
    (hk : k ≠ key) :
    jget (loadContext (saveToContext s name [(key, v)]) name) k =
      jget (loadContext s name) k := by
  rw [loadContext_saveToContext, ctxMerge_jget]
  have : jget [(key, v)] k = none := by
    unfold jget
    rw [if_neg (fun hc => hk hc.symm)]
    rfl
  rw [this]

theorem afterLoop_frame (name : String) (sec : TocSection) (st' : WalkState)
    (res : Option String) (gsec : Option DocSection) (k : String)
    (hk : k ≠ "section-" ++ sec.slug) :
    jget (loadContext (afterLoop name sec st' res gsec).1.cache name) k =
      jget (loadContext st'.cache name) k := by
  unfold afterLoop
  split
  · split
    · exact jget_save_other st'.cache name ("section-" ++ sec.slug) k (.vsection sec) hk
    · rfl
  · rfl

theorem processSection_skip (oracle : Oracle) (name : String)
    (docParts : List (String × DocSection)) (st : WalkState) (sec : TocSection)
    (v : CVal) (h : getFromContext st.cache name ("section-" ++ sec.slug) = some v) :
    processSection oracle name docParts st sec = (st, .next) := by
  unfold processSection
  rw [h]

theorem processSection_frame (oracle : Oracle) (name : String)
    (docParts : List (String × DocSection)) (st : WalkState) (sec : TocSection)
    (k : String) (hk : k ≠ "section-" ++ sec.slug) :
    jget (loadContext (processSection oracle name docParts st sec).1.cache name) k =
      jget (loadContext st.cache name) k := by
  unfold processSection
  split
  · rfl
  · split
    · rfl
    · exact afterLoop_frame name sec _ _ _ k hk

theorem processSections_frame (oracle : Oracle) (name : String)
    (docParts : List (String × DocSection)) (secs : List TocSection) :
    ∀ (st : WalkState) (k : String),
      (∀ sec ∈ secs, k ≠ "section-" ++ sec.slug) →
      jget (loadContext (processSections oracle name docParts secs st).1.cache name) k =
        jget (loadContext st.cache name) k := by
  induction secs with
  | nil => intro st k _; rfl
  | cons sec rest ih =>
    intro st k hk
    have hsec : k ≠ "section-" ++ sec.slug := hk sec (List.mem_cons_self sec rest)
    have hrest : ∀ s ∈ rest, k ≠ "section-" ++ s.slug :=
      fun s hs => hk s (List.mem_cons_of_mem sec hs)
    have hframe := processSection_frame oracle name docParts st sec k hsec
    unfold processSections
    cases hps : processSection oracle name docParts st sec with
    | mk st' flow =>
      rw [hps] at hframe
      cases flow with
      | next =>
        simp only
        rw [ih st' k hrest]
        exact hframe
      | stop e =>
        simp only
        exact hframe

/-- C6: for any prefix of sections whose Done markers (`section-{slug}`)
are cached (truthy), re-invoking the section walk behaves exactly as a
walk over the remaining sections alone — the marked sections trigger no
remote call and no state change — and the walk over the remainder leaves
every cache key other than the remainder's own markers (in particular the
prefix sections' markers and content keys) unchanged. -/
theorem resumption_idempotent (oracle : Oracle) (name : String)
    (docParts : List (String × DocSection)) (P rest : List TocSection)
    (st : WalkState)
    (hdone : ∀ sec ∈ P, ∃ v,
      jget (loadContext st.cache name) ("section-" ++ sec.slug) = some v ∧
      truthy v = true) :
    processSections oracle name docParts (P ++ rest) st =
      processSections oracle name docParts rest st ∧
    (∀ k, (∀ sec ∈ rest, k ≠ "section-" ++ sec.slug) →
      jget (loadContext (processSections oracle name docParts rest st).1.cache name) k =
        jget (loadContext st.cache name) k) := by
  constructor
  · induction P with
    | nil => rfl
    | cons secP tl ih =>
      obtain ⟨v, hv, ht⟩ := hdone secP (List.mem_cons_self secP tl)
      have hskip := processSection_skip oracle name docParts st secP v
        (getFromContext_of_truthy st.cache name ("section-" ++ secP.slug) v hv ht)
      have htl : ∀ sec ∈ tl, ∃ v,
          jget (loadContext st.cache name) ("section-" ++ sec.slug) = some v ∧
          truthy v = true :=
        fun sec hs => hdone sec (List.mem_cons_of_mem secP hs)
      calc processSections oracle name docParts ((secP :: tl) ++ rest) st
          = processSections oracle name docParts (tl ++ rest) st := by
            simp only [List.cons_append, processSections]
            rw [hskip]
            rfl
        _ = processSections oracle name docParts rest st := ih htl
  · exact fun k hk => processSections_frame oracle name docParts rest st k hk

/-- Witness for `resumption_idempotent`: one already-marked section
before an empty remainder. -/
theorem resumption_idempotent_witness :
    processSections (fun _ => .ok "x") "ctx" []
        ([⟨"a", "A", "", none, none⟩] ++ [])
        ⟨⟨some [("section-a", .vsection ⟨"a", "A", "", none, none⟩)], fun _ => none⟩,
          0, []⟩ =
      processSections (fun _ => .ok "x") "ctx" [] []
        ⟨⟨some [("section-a", .vsection ⟨"a", "A", "", none, none⟩)], fun _ => none⟩,
          0, []⟩ ∧
    (∀ k, (∀ sec ∈ ([] : List TocSection), k ≠ "section-" ++ sec.slug) →
      jget (loadContext (processSections (fun _ => .ok "x") "ctx" [] []
          ⟨⟨some [("section-a", .vsection ⟨"a", "A", "", none, none⟩)], fun _ => none⟩,
            0, []⟩).1.cache "ctx") k =
        jget (loadContext
          (⟨⟨some [("section-a", .vsection ⟨"a", "A", "", none, none⟩)], fun _ => none⟩,
            0, []⟩ : WalkState).cache "ctx") k) :=
  resumption_idempotent (fun _ => .ok "x") "ctx" [] [⟨"a", "A", "", none, none⟩] []
    ⟨⟨some [("section-a", .vsection ⟨"a", "A", "", none, none⟩)], fun _ => none⟩, 0, []⟩
    (by
      intro sec hsec
      simp only [List.mem_singleton] at hsec
      subst hsec
      exact ⟨.vsection ⟨"a", "A", "", none, none⟩, rfl, rfl⟩)

/-- A cache whose `"toc"` key is already populated. -/
def cachedTocState : CacheState :=
  ⟨some [("toc", .vtoc ⟨[]⟩)], fun _ => none⟩

/-- C8 counterexample: the CLI-doc generator run does NOT check the cache
key `"toc"` before invoking the TOC generator — with `"toc"` already
cached it still issues one TOC-generation remote call (the claim says
zero), uses the fresh result instead of the cached outline, and persists
nothing. -/
theorem cli_run_ignores_cached_toc :
    getFromContext cachedTocState "cli" "toc" = some (.vtoc ⟨[]⟩) ∧
    cliTocPhase (.ok ⟨[⟨"s", "S", "", none, none⟩]⟩) cachedTocState =
      .ok (⟨[⟨"s", "S", "", none, none⟩]⟩, cachedTocState, 1) ∧
    (1 : Nat) ≠ 0 :=
  ⟨rfl, rfl, by decide⟩

/-- C8 amended: the API-doc generator checks the cache key `"toc"` before
invoking the TOC generator — a cached truthy value means no TOC remote
call and an unchanged cache, and after a successful TOC call the result
is persisted under `"toc"` — while the CLI-doc generator invokes the TOC
generator unconditionally (one remote call even on resumed runs) and
never persists the outline in the cache. -/
theorem tocPhase_caching (tocOracle : Except String Toc) (s : CacheState)
    (name : String) :
    (∀ v, getFromContext s name "toc" = some v →
      apiTocPhase tocOracle s name = .ok (v, s, 0)) ∧
    (getFromContext s name "toc" = none → ∀ t, tocOracle = .ok t →
      apiTocPhase tocOracle s name =
        .ok (.vtoc t, saveToContext s name [("toc", .vtoc t)], 1) ∧
      jget (loadContext (saveToContext s name [("toc", .vtoc t)]) name) "toc" =
        some (.vtoc t)) ∧
    (∀ t, tocOracle = .ok t → cliTocPhase tocOracle s = .ok (t, s, 1)) := by
  refine ⟨fun v hv => ?_, fun hnone t ht => ?_, fun t ht => ?_⟩
  · unfold apiTocPhase
    rw [hv]
  · constructor
    · unfold apiTocPhase
      rw [hnone, ht]
    · rw [loadContext_saveToContext, ctxMerge_jget]
      simp [jget]
  · unfold cliTocPhase
    rw [ht]

/-- Witness for `tocPhase_caching`: with `"toc"` cached, the API phase
issues no call and returns the cached value; the CLI phase still issues
its call. -/
theorem tocPhase_caching_witness :
    apiTocPhase (.ok ⟨[]⟩) cachedTocState "ctx" = .ok (.vtoc ⟨[]⟩, cachedTocState, 0) ∧
    cliTocPhase (.ok ⟨[]⟩) cachedTocState = .ok (⟨[]⟩, cachedTocState, 1) :=
  ⟨(tocPhase_caching (.ok ⟨[]⟩) cachedTocState "ctx").1 (.vtoc ⟨[]⟩) rfl,
    (tocPhase_caching (.ok ⟨[]⟩) cachedTocState "ctx").2.2 ⟨[]⟩ rfl⟩

/-- C10: for a path id with no (truthy) cache entry, `generatePath`
persists the remote result under the path id only when the result, after
stripping code-block fence markers, parses as YAML: on a parse failure it
throws with the cache still in its original state (no partial entry for
the path key), and on success the persisted value is exactly the stripped
text. -/
theorem generatePath_persists_only_valid_yaml (yparse : String → Bool)
    (s : CacheState) (name pathId text : String)
    (hnew : getFromContext s name pathId = none) :
    (yparse (removeCodeBlockMarkers text) = false →
      generatePath yparse (.ok text) s name pathId = .error ("YAML parse error", s)) ∧
    (yparse (removeCodeBlockMarkers text) = true →
      generatePath yparse (.ok text) s name pathId =
        .ok (saveToContext s name [(pathId, .vstr (removeCodeBlockMarkers text))]) ∧
      jget (loadContext (saveToContext s name
          [(pathId, .vstr (removeCodeBlockMarkers text))]) name) pathId =
        some (.vstr (removeCodeBlockMarkers text))) ∧
    (∀ s', generatePath yparse (.ok text) s name pathId = .ok s' →
      yparse (removeCodeBlockMarkers text) = true) := by
  refine ⟨fun hf => ?_, fun htr => ⟨?_, ?_⟩, fun s' hok => ?_⟩
  · unfold generatePath validateYaml
    rw [hnew]
    simp only [hf]
    rfl
  · unfold generatePath validateYaml
    rw [hnew]
    simp only [htr]
    rfl
  · rw [loadContext_saveToContext, ctxMerge_jget]
    simp [jget]
  · by_cases hy : yparse (removeCodeBlockMarkers text) = true
    · exact hy
    · unfold generatePath validateYaml at hok
      rw [hnew] at hok
      simp only [Bool.not_eq_true] at hy
      simp only [hy] at hok
      exact absurd hok (by simp)

/-- Witness for `generatePath_persists_only_valid_yaml`: a parser that
rejects everything makes `generatePath` throw with the cache unchanged. -/
theorem generatePath_persists_only_valid_yaml_witness :
    generatePath (fun _ => false) (.ok "x") ⟨none, fun _ => none⟩ "ctx" "p" =
      .error ("YAML parse error", ⟨none, fun _ => none⟩) :=
  (generatePath_persists_only_valid_yaml (fun _ => false) ⟨none, fun _ => none⟩
    "ctx" "p" "x" rfl).1 rfl

end LlmDocGen
